import Mathlib

/-!
Shallow embedding of the swait crate (src/lib.rs): a blocking executor for a
single future, built from a tri-state per-thread Signal, a spin policy
(cond_spin), a parallelism probe (is_multithreaded_env) and a driver loop
(swait).  Machine integers are modelled as Nat; the atomic state byte only
ever holds the three constants below.  Concurrency between the single waiter
executing Signal::wait and any number of notifiers calling Signal::notify is
modelled as a small-step relation on configurations.
-/

namespace Swait

/-- Signal state constant WAITING (0) from src/lib.rs. -/
def WAITING : Nat := 0

/-- Signal state constant PARKED (1) from src/lib.rs. -/
def PARKED : Nat := 1

/-- Signal state constant NOTIFIED (255) from src/lib.rs. -/
def NOTIFIED : Nat := 255

/-- State stored by Signal::new: the atomic byte starts at WAITING. -/
def signalNewState : Nat := WAITING

/-- Rust Signal::notify: swap the state to NOTIFIED and capture the previous
value; unpark the owning thread exactly when the previous value was PARKED.
Returns the new state together with whether unpark was called. -/
def notify (s : Nat) : Nat × Bool := (NOTIFIED, decide (s = PARKED))

/-- Constant SPINING_COUNT of cond_spin. -/
def SPINING_COUNT : Nat := 5

/-- Constant YIELD_COUNT of cond_spin. -/
def YIELD_COUNT : Nat := 5

/-- Observable actions of cond_spin: a busy-spin burst of n spin_loop hints,
one yield_now call, or one evaluation of the predicate with its result. -/
inductive SAct : Type
| spinB (n : Nat)
| yieldA
| checkA (b : Bool)
deriving DecidableEq

/-- Yield loop of cond_spin: n rounds of (yield_now; check predicate); the
effectful predicate is modelled by the sequence pred of its successive
return values, and i is the index of its next evaluation. -/
def yieldPhase (pred : Nat → Bool) : Nat → Nat → Bool × List SAct
| _, 0 => (false, [])
| i, n+1 =>
  if pred i then (true, [SAct.yieldA, SAct.checkA true])
  else
    let r := yieldPhase pred (i+1) n
    (r.1, SAct.yieldA :: SAct.checkA false :: r.2)

/-- Escalating busy-spin loop of cond_spin: rounds with shift = sh, sh+1, ...
(the source iterates shift over 1..1+SPINING_COUNT), each spinning 2 ^ shift
times and then checking the predicate; n rounds remain. -/
def spinPhase (pred : Nat → Bool) : Nat → Nat → Nat → Bool × List SAct
| _, _, 0 => (false, [])
| i, sh, n+1 =>
  if pred i then (true, [SAct.spinB (2 ^ sh), SAct.checkA true])
  else
    let r := spinPhase pred (i+1) (sh+1) n
    (r.1, SAct.spinB (2 ^ sh) :: SAct.checkA false :: r.2)

/-- Rust cond_spin from src/lib.rs, with the result of the internal call to
is_multithreaded_env passed as the hint mt, and the successive results of the
effectful predicate modelled as the sequence pred.  Returns the result
together with the trace of the actions performed. -/
def cond_spin (mt : Bool) (pred : Nat → Bool) : Bool × List SAct :=
  if pred 0 then (true, [SAct.checkA true])
  else
    let rest :=
      if mt then
        let r1 := spinPhase pred 1 1 SPINING_COUNT
        if r1.1 then r1
        else
          let r2 := yieldPhase pred (1 + SPINING_COUNT) YIELD_COUNT
          (r2.1, r1.2 ++ r2.2)
      else yieldPhase pred 1 (YIELD_COUNT + SPINING_COUNT)
    (rest.1, SAct.checkA false :: rest.2)

/-- Recognise a predicate-evaluation action. -/
def isCheckAct : SAct → Bool
| SAct.checkA _ => true
| _ => false

/-- Recognise a busy-spin action. -/
def isSpinAct : SAct → Bool
| SAct.spinB _ => true
| _ => false

/-- Number of predicate evaluations recorded in a trace. -/
def evalCount (tr : List SAct) : Nat := (tr.filter isCheckAct).length

/-- Total predicate-evaluation budget of cond_spin: the initial check plus
one check per spin round plus one per yield round in the multithreaded
branch, and one check per yield in the single-threaded branch; both equal
eleven. -/
def spinEvalBudget : Nat := 1 + SPINING_COUNT + YIELD_COUNT

/-- Rust is_multithreaded_env from src/lib.rs.  The process-wide cached value
(static PARRALLELISM, where 0 means not yet queried) is passed and returned
explicitly; query models the outcome of available_parallelism(), with none
for a failure which unwrap_or replaces by 1.  Returns (is multithreaded,
new cached value, whether the platform was actually queried). -/
def is_multithreaded_env (cache : Nat) (query : Option Nat) : Bool × Nat × Bool :=
  if cache = 0 then
    let p := match query with
      | some n => n
      | none => 1
    (decide (p > 1), p, true)
  else (decide (cache > 1), cache, false)

/-- Program counter of Signal::wait, one location per atomic action of the
source: spin k means inside cond_spin with k predicate evaluations remaining
(each evaluation is the CAS NOTIFIED to WAITING); tryPark is about to CAS
WAITING to PARKED; storeW means that CAS failed and the waiter is about to
store(WAITING) and return; loopCheck is about to CAS NOTIFIED to WAITING in
the park loop; parked is inside std::thread::park(); done p means wait has
returned (p = 0: spin path, p = 1: failed-park race path, p = 2: park-loop
path). -/
inductive WPC : Type
| spin (k : Nat)
| tryPark
| storeW
| loopCheck
| parked
| done (p : Nat)
deriving DecidableEq

/-- Configuration of one Signal::wait call interleaved with notifiers: the
atomic state byte, the waiter program counter, the number of OS park calls
performed so far, and whether the waiter has observed the value NOTIFIED in
one of its atomic operations. -/
structure WCfg : Type where
  st : Nat
  pc : WPC
  parks : Nat
  sawN : Bool
deriving DecidableEq

/-- One atomic step of the waiter executing Signal::wait.  Each constructor
mirrors one atomic operation of the source: the predicate CAS inside
cond_spin (hit, miss, and budget exhaustion), the CAS WAITING to PARKED with
its two outcomes, the store(WAITING) on the failed-CAS path, the park-loop
CAS with its two outcomes, and the return from std::thread::park (covering
both genuine unparks and spurious wakeups). -/
inductive WaiterStep : WCfg → WCfg → Prop
| spinHit (k st parks : Nat) (sawN : Bool) (h : st = NOTIFIED) :
    WaiterStep ⟨st, WPC.spin (k+1), parks, sawN⟩ ⟨WAITING, WPC.done 0, parks, true⟩
| spinMiss (k st parks : Nat) (sawN : Bool) (h : st ≠ NOTIFIED) (hk : 0 < k) :
    WaiterStep ⟨st, WPC.spin (k+1), parks, sawN⟩ ⟨st, WPC.spin k, parks, sawN⟩
| spinOut (st parks : Nat) (sawN : Bool) (h : st ≠ NOTIFIED) :
    WaiterStep ⟨st, WPC.spin 1, parks, sawN⟩ ⟨st, WPC.tryPark, parks, sawN⟩
| parkOk (parks : Nat) (sawN : Bool) :
    WaiterStep ⟨WAITING, WPC.tryPark, parks, sawN⟩ ⟨PARKED, WPC.loopCheck, parks, sawN⟩
| parkFail (st parks : Nat) (sawN : Bool) (h : st ≠ WAITING) :
    WaiterStep ⟨st, WPC.tryPark, parks, sawN⟩
      ⟨st, WPC.storeW, parks, sawN || decide (st = NOTIFIED)⟩
| storeWaiting (st parks : Nat) (sawN : Bool) :
    WaiterStep ⟨st, WPC.storeW, parks, sawN⟩ ⟨WAITING, WPC.done 1, parks, sawN⟩
| loopHit (st parks : Nat) (sawN : Bool) (h : st = NOTIFIED) :
    WaiterStep ⟨st, WPC.loopCheck, parks, sawN⟩ ⟨WAITING, WPC.done 2, parks, true⟩
| loopMiss (st parks : Nat) (sawN : Bool) (h : st ≠ NOTIFIED) :
    WaiterStep ⟨st, WPC.loopCheck, parks, sawN⟩ ⟨st, WPC.parked, parks, sawN⟩
| wake (st parks : Nat) (sawN : Bool) :
    WaiterStep ⟨st, WPC.parked, parks, sawN⟩ ⟨st, WPC.loopCheck, parks + 1, sawN⟩

/-- One step of the whole system: either the waiter acts, or some other
party calls Signal::notify, whose swap drives the state byte to NOTIFIED. -/
inductive WStep : WCfg → WCfg → Prop
| waiter {c c' : WCfg} (h : WaiterStep c c') : WStep c c'
| notifyStep (c : WCfg) : WStep c ⟨(notify c.st).1, c.pc, c.parks, c.sawN⟩

/-- Configuration at entry to Signal::wait: the full cond_spin evaluation
budget remains, no parks have happened, nothing has been observed. -/
def initCfg (s : Nat) : WCfg := ⟨s, WPC.spin spinEvalBudget, 0, false⟩

/-- Reachability in zero or more system steps. -/
def WReach : WCfg → WCfg → Prop := Relation.ReflTransGen WStep

/-- Result of one poll of the future as seen by the driver loop of swait;
panicked e models a panic unwinding out of poll. -/
inductive PollR (ε α : Type) : Type
| ready (v : α)
| pending
| panicked (e : ε)

/-- One poll of the future: how many times it invoked the waker (each
invocation is Signal::notify on the thread Signal) before returning, and
what the poll returned. -/
structure FPoll (ε α : Type) : Type where
  wakes : Nat
  res : PollR ε α

/-- Signal state after a poll that called the waker w times: each call is
notify, whose swap leaves the state at NOTIFIED. -/
def pollEffect (s w : Nat) : Nat := (fun t => (notify t).1)^[w] s

/-- Driver loop of swait (src/lib.rs lines 185 to 198) specialised to a
single thread: polls are numbered from i; on Poll::Pending the loop calls
Signal::wait, which with no other thread present returns (consuming the
notification and resetting the state to WAITING) exactly when the state is
NOTIFIED, and otherwise parks the thread forever.  fuel bounds the number of
polls.  Returns (outcome, polls performed, waits performed, final signal
state), or none when the call never returns (or fuel ran out). -/
def swaitSeq {ε α : Type} (f : Nat → FPoll ε α) :
    Nat → Nat → Nat → Option (Except ε α × Nat × Nat × Nat)
| 0, _, _ => none
| fuel+1, i, s =>
  let p := f i
  let s1 := pollEffect s p.wakes
  match p.res with
  | PollR.ready v => some (Except.ok v, i + 1, i, s1)
  | PollR.panicked e => some (Except.error e, i + 1, i, s1)
  | PollR.pending =>
    if s1 = NOTIFIED then swaitSeq f fuel (i + 1) WAITING else none

/-- C3: notify atomically swaps the Signal state to NOTIFIED and resumes the
owning thread exactly when the previous value was PARKED; when the previous
value was WAITING or NOTIFIED it performs no resume call, and a repeated
notify never resumes again since the previous value is then NOTIFIED. -/
theorem C3_notify_swap_unpark :
    ∀ s : Nat,
      (notify s).1 = NOTIFIED ∧
      ((notify s).2 = true ↔ s = PARKED) ∧
      (notify (notify s).1).2 = false ∧
      (s = WAITING ∨ s = NOTIFIED → (notify s).2 = false) := by
  intro s
  refine ⟨rfl, ?_, ?_, ?_⟩
  · simp [notify]
  · simp [notify, NOTIFIED, PARKED]
  · rintro (rfl | rfl) <;> simp [notify, WAITING, NOTIFIED, PARKED]

/-- Witness for C3 at the concrete previous value WAITING. -/
theorem C3_notify_swap_unpark_witness : (notify WAITING).2 = false :=
  (C3_notify_swap_unpark WAITING).2.2.2 (Or.inl rfl)

/-- C9: the parallelism probe queries the platform exactly when the cache is
still 0, caches the answer (caching the fallback value 1 when the query
fails), and every later call answers cached-value-greater-than-one without
querying again; after a failed query the process is permanently judged
single-threaded. -/
theorem C9_parallelism_probe :
    (∀ q : Option Nat,
        is_multithreaded_env 0 q = (decide (q.getD 1 > 1), q.getD 1, true)) ∧
    (∀ (c : Nat) (q : Option Nat), c ≠ 0 →
        is_multithreaded_env c q = (decide (c > 1), c, false)) ∧
    (∀ q q2 : Option Nat, (∀ n, q = some n → 0 < n) →
        (is_multithreaded_env (is_multithreaded_env 0 q).2.1 q2).2.2 = false ∧
        (is_multithreaded_env (is_multithreaded_env 0 q).2.1 q2).1 =
          (is_multithreaded_env 0 q).1) ∧
    (is_multithreaded_env 0 none = (false, 1, true) ∧
      ∀ q2 : Option Nat, is_multithreaded_env 1 q2 = (false, 1, false)) := by
  refine ⟨?_, ?_, ?_, ?_, ?_⟩
  · intro q
    cases q <;> simp [is_multithreaded_env, Option.getD]
  · intro c q hc
    simp [is_multithreaded_env, hc]
  · intro q q2 hq
    cases q with
    | none => simp [is_multithreaded_env]
    | some n =>
      have hn : n ≠ 0 := (hq n rfl).ne'
      simp [is_multithreaded_env, hn]
  · simp [is_multithreaded_env]
  · intro q2
    simp [is_multithreaded_env]

/-- Witness for C9 at a cached value 4 and an ignored platform answer. -/
theorem C9_parallelism_probe_witness :
    is_multithreaded_env 4 none = (true, 4, false) :=
  C9_parallelism_probe.2.1 4 none (by decide)

/-- C1: if the first poll of the future returns Ready v without invoking the
waker, swait returns v after exactly one poll, with zero wait calls and the
Signal state left untouched. -/
theorem C1_ready_fast_path :
    ∀ (ε α : Type) (f : Nat → FPoll ε α) (v : α) (s fuel : Nat),
      f 0 = ⟨0, PollR.ready v⟩ → 0 < fuel →
      swaitSeq f fuel 0 s = some (Except.ok v, 1, 0, s) := by
  intro ε α f v s fuel h hf
  cases fuel with
  | zero => omega
  | succ n => simp [swaitSeq, h, pollEffect]

/-- Witness for C1: a future that immediately yields 777, as in the spec
scenario. -/
theorem C1_ready_fast_path_witness :
    swaitSeq (fun _ => (⟨0, PollR.ready 777⟩ : FPoll Nat Nat)) 1 0 WAITING =
      some (Except.ok 777, 1, 0, WAITING) :=
  C1_ready_fast_path Nat Nat (fun _ => ⟨0, PollR.ready 777⟩) 777 WAITING 1 rfl
    (by decide)

/-- A poll that invoked the waker at least once leaves the state NOTIFIED. -/
theorem pollEffect_pos (s w : Nat) : pollEffect s (w + 1) = NOTIFIED := by
  simp [pollEffect, Function.iterate_succ_apply']
  rfl

/-- A poll that never invoked the waker leaves the state unchanged. -/
theorem pollEffect_zero (s : Nat) : pollEffect s 0 = s := rfl

/-- Helper: a run whose first k polls are Pending with at least one waker
call each reaches poll number i + k, and a panic there propagates out. -/
theorem swaitSeq_panic_aux {ε α : Type} (f : Nat → FPoll ε α) (e : ε) :
    ∀ (k i s fuel wk : Nat),
      (∀ j, j < k → ∃ w, f (i + j) = ⟨w + 1, PollR.pending⟩) →
      f (i + k) = ⟨wk, PollR.panicked e⟩ → k < fuel →
      swaitSeq f fuel i s =
        some (Except.error e, i + k + 1, i + k,
          pollEffect (if k = 0 then s else WAITING) wk) := by
  intro k
  induction k with
  | zero =>
    intro i s fuel wk hp hk hf
    cases fuel with
    | zero => omega
    | succ n =>
      rw [Nat.add_zero] at hk
      simp [swaitSeq, hk]
  | succ m ih =>
    intro i s fuel wk hp hk hf
    cases fuel with
    | zero => omega
    | succ n =>
      obtain ⟨w, hw⟩ := hp 0 (Nat.succ_pos m)
      rw [Nat.add_zero] at hw
      have step : swaitSeq f (n + 1) i s = swaitSeq f n (i + 1) WAITING := by
        simp [swaitSeq, hw, pollEffect_pos]
      have hp2 : ∀ j, j < m → ∃ w2, f (i + 1 + j) = ⟨w2 + 1, PollR.pending⟩ := by
        intro j hj
        have h3 := hp (j + 1) (by omega)
        rw [show i + (j + 1) = i + 1 + j by omega] at h3
        exact h3
      have hk2 : f (i + 1 + m) = ⟨wk, PollR.panicked e⟩ := by
        rw [show i + 1 + m = i + (m + 1) by omega]
        exact hk
      have hrec := ih (i + 1) WAITING n wk hp2 hk2 (by omega)
      rw [step, hrec]
      have h1 : i + 1 + m = i + (m + 1) := by omega
      simp [h1]

/-- C6: a panic raised while polling propagates synchronously and unchanged
out of swait: if the first k polls are Pending (each having signalled
progress) and poll number k panics with e, swait returns exactly error e
after k + 1 polls; conversely any error swait ever returns is exactly the
panic raised by the last poll performed — the fault is never caught, retried
or substituted. -/
theorem C6_panic_propagation :
    (∀ (ε α : Type) (f : Nat → FPoll ε α) (e : ε) (wk k s fuel : Nat),
      (∀ j, j < k → ∃ w, f j = ⟨w + 1, PollR.pending⟩) →
      f k = ⟨wk, PollR.panicked e⟩ → k < fuel →
      swaitSeq f fuel 0 s =
        some (Except.error e, k + 1, k,
          pollEffect (if k = 0 then s else WAITING) wk)) ∧
    (∀ (ε α : Type) (f : Nat → FPoll ε α) (fuel i s : Nat)
        (r : Except ε α × Nat × Nat × Nat),
      swaitSeq f fuel i s = some r →
      ∀ e, r.1 = Except.error e → (f (r.2.1 - 1)).res = PollR.panicked e) := by
  constructor
  · intro ε α f e wk k s fuel hp hk hf
    have h0 := swaitSeq_panic_aux f e k 0 s fuel wk
      (by intro j hj; simpa using hp j hj) (by simpa using hk) hf
    simpa using h0
  · intro ε α f fuel
    induction fuel with
    | zero => intro i s r h; simp [swaitSeq] at h
    | succ n ih =>
      intro i s r h e hr
      rcases hfi : f i with ⟨w, res⟩
      cases res with
      | ready v =>
        simp [swaitSeq, hfi] at h
        rw [← h] at hr
        simp at hr
      | panicked e2 =>
        simp [swaitSeq, hfi] at h
        rw [← h] at hr
        simp at hr
        rw [← h]
        simp [hfi, hr]
      | pending =>
        simp [swaitSeq, hfi] at h
        exact ih (i + 1) WAITING r h.2 e hr

/-- Witness for C6: a future that panics on its very first poll. -/
theorem C6_panic_propagation_witness :
    swaitSeq (fun _ => (⟨0, PollR.panicked 9⟩ : FPoll Nat Nat)) 1 0 WAITING =
      some (Except.error 9, 1, 0, WAITING) :=
  C6_panic_propagation.1 Nat Nat (fun _ => ⟨0, PollR.panicked 9⟩) 9 0 0 WAITING 1
    (fun j hj => absurd hj (Nat.not_lt_zero j)) rfl (by decide)

/-- Tri-state predicate on the atomic byte. -/
def triState (s : Nat) : Prop := s = WAITING ∨ s = PARKED ∨ s = NOTIFIED

/-- Location-indexed part of the C4 invariant: the byte is never PARKED
while the waiter has not yet committed to parking, and every configuration
at or past a return point has observed NOTIFIED. -/
def pcInv : WPC → Nat → Bool → Prop
| WPC.spin _, st, _ => st ≠ PARKED
| WPC.tryPark, st, _ => st ≠ PARKED
| WPC.storeW, _, sawN => sawN = true
| WPC.done _, _, sawN => sawN = true
| _, _, _ => True

/-- Invariant for C4. -/
def WInv (c : WCfg) : Prop := triState c.st ∧ pcInv c.pc c.st c.sawN

/-- The invariant is preserved by every system step. -/
theorem WInv_step {c c' : WCfg} (h : WInv c) (hs : WStep c c') : WInv c' := by
  obtain ⟨ht, hm⟩ := h
  cases hs with
  | waiter hw =>
    cases hw with
    | spinHit k st parks sawN h1 => exact ⟨Or.inl rfl, rfl⟩
    | spinMiss k st parks sawN h1 hk => exact ⟨ht, hm⟩
    | spinOut st parks sawN h1 => exact ⟨ht, hm⟩
    | parkOk parks sawN => exact ⟨Or.inr (Or.inl rfl), trivial⟩
    | parkFail st parks sawN h1 =>
      have hN : st = NOTIFIED := by
        rcases ht with h2 | h2 | h2
        · exact absurd h2 h1
        · exact absurd h2 hm
        · exact h2
      refine ⟨ht, ?_⟩
      show (_ || _) = true
      simp [hN]
    | storeWaiting st parks sawN => exact ⟨Or.inl rfl, hm⟩
    | loopHit st parks sawN h1 => exact ⟨Or.inl rfl, rfl⟩
    | loopMiss st parks sawN h1 => exact ⟨ht, trivial⟩
    | wake st parks sawN => exact ⟨ht, trivial⟩
  | notifyStep =>
    refine ⟨Or.inr (Or.inr rfl), ?_⟩
    obtain ⟨c1, c2, c3, c4⟩ := c
    cases c2 <;>
      first
        | exact hm
        | trivial
        | exact (by decide : NOTIFIED ≠ PARKED)

/-- The invariant propagates along reachability. -/
theorem WInv_reach {a b : WCfg} (h : WInv a) (hr : WReach a b) : WInv b := by
  have hr2 := hr
  clear hr
  induction hr2 with
  | refl => exact h
  | tail hab hbc ih => exact WInv_step ih hbc

/-- C4: wait never returns without a notification having been observed: for
any interleaving of notify calls, every reachable configuration in which
wait has returned records that the waiter saw the value NOTIFIED, either in
a successful NOTIFIED to WAITING compare-and-swap or in the failed WAITING
to PARKED compare-and-swap. -/
theorem C4_no_spurious_return :
    ∀ (s : Nat) (c : WCfg), s = WAITING ∨ s = NOTIFIED →
      WReach (initCfg s) c → (∃ p, c.pc = WPC.done p) → c.sawN = true := by
  intro s c hs hr hp
  have h0 : WInv (initCfg s) := by
    constructor
    · rcases hs with rfl | rfl
      · exact Or.inl rfl
      · exact Or.inr (Or.inr rfl)
    · show (initCfg s).st ≠ PARKED
      rcases hs with rfl | rfl <;> decide
  have h1 := WInv_reach h0 hr
  obtain ⟨p, hpc⟩ := hp
  have h2 := h1.2
  rw [hpc] at h2
  exact h2

/-- Witness for C4: a notification that arrived before wait is consumed on
the spin path, and the return indeed observed NOTIFIED. -/
theorem C4_no_spurious_return_witness :
    (⟨WAITING, WPC.done 0, 0, true⟩ : WCfg).sawN = true :=
  C4_no_spurious_return NOTIFIED ⟨WAITING, WPC.done 0, 0, true⟩ (Or.inr rfl)
    (Relation.ReflTransGen.single
      (WStep.waiter (WaiterStep.spinHit 10 NOTIFIED 0 false rfl)))
    ⟨0, rfl⟩

/-- C5: every return path of wait leaves the state byte at WAITING: any step
whose target configuration is a return (from a source that had not yet
returned, so the step is the waiter returning rather than a later notify)
stores WAITING. -/
theorem C5_state_reset_on_return :
    ∀ (c c' : WCfg), WStep c c' → (∀ q, c.pc ≠ WPC.done q) →
      (∃ p, c'.pc = WPC.done p) → c'.st = WAITING := by
  intro c c' hs hnd hp
  obtain ⟨p, hpc⟩ := hp
  cases hs with
  | waiter hw => cases hw <;> simp_all
  | notifyStep => exact absurd hpc (hnd p)

/-- Witness for C5: the failed-park race path stores WAITING on return. -/
theorem C5_state_reset_on_return_witness :
    (⟨WAITING, WPC.done 1, 3, true⟩ : WCfg).st = WAITING :=
  C5_state_reset_on_return ⟨NOTIFIED, WPC.storeW, 3, true⟩
    ⟨WAITING, WPC.done 1, 3, true⟩
    (WStep.waiter (WaiterStep.storeWaiting NOTIFIED 3 true))
    (fun _ h => WPC.noConfusion h) ⟨1, rfl⟩

/-- C10: the tri-state interpretation of the atomic byte is an invariant:
the byte is WAITING at creation, notify only ever stores NOTIFIED, and every
step of the wait/notify system preserves membership in the set WAITING,
PARKED, NOTIFIED. -/
theorem C10_tri_state_invariant :
    triState signalNewState ∧
    (∀ s : Nat, triState (notify s).1) ∧
    (∀ c c' : WCfg, triState c.st → WStep c c' → triState c'.st) := by
  refine ⟨Or.inl rfl, fun s => Or.inr (Or.inr rfl), ?_⟩
  intro c c' h hs
  cases hs with
  | waiter hw => cases hw <;> simp_all [triState, WAITING, PARKED, NOTIFIED]
  | notifyStep => exact Or.inr (Or.inr rfl)

/-- Witness for C10: the park transition stays inside the tri-state set. -/
theorem C10_tri_state_invariant_witness :
    triState ((⟨PARKED, WPC.loopCheck, 0, false⟩ : WCfg).st) :=
  C10_tri_state_invariant.2.2 ⟨WAITING, WPC.tryPark, 0, false⟩
    ⟨PARKED, WPC.loopCheck, 0, false⟩ (Or.inl rfl)
    (WStep.waiter (WaiterStep.parkOk 0 false))

/-- Phases in which no OS park can have happened yet: the spin phase, the
park-transition attempt, the failed-transition store, and the two returns
they lead to. -/
def noParkPhase : WPC → Bool
| WPC.spin _ => true
| WPC.tryPark => true
| WPC.storeW => true
| WPC.done 0 => true
| WPC.done 1 => true
| _ => false

/-- Park counting: a step never produces a parked count in a pre-park phase. -/
theorem noPark_step {c c' : WCfg} (h : noParkPhase c.pc = true → c.parks = 0)
    (hs : WStep c c') : noParkPhase c'.pc = true → c'.parks = 0 := by
  cases hs with
  | waiter hw => cases hw <;> simp_all [noParkPhase]
  | notifyStep => exact h

/-- Park counting propagates along reachability. -/
theorem noPark_reach {a b : WCfg} (h0 : noParkPhase a.pc = true → a.parks = 0)
    (hr : WReach a b) : noParkPhase b.pc = true → b.parks = 0 := by
  have hr2 := hr
  clear hr
  induction hr2 with
  | refl => exact h0
  | tail hab hbc ih => exact noPark_step ih hbc

/-- C2 counterexample: an execution in which the WAITING to PARKED
compare-and-swap succeeds and wait nevertheless returns without one single
OS park, because the notification landed between that transition and the
first iteration of the park loop, whose compare-and-swap is checked before
parking; the claim states that after a successful transition to PARKED the
thread parks. -/
theorem C2_park_counterexample :
    WReach (initCfg WAITING) ⟨WAITING, WPC.done 2, 0, true⟩ ∧
    (⟨WAITING, WPC.done 2, 0, true⟩ : WCfg).parks = 0 := by
  constructor
  · refine Relation.ReflTransGen.head
      (WStep.waiter (WaiterStep.spinMiss 10 WAITING 0 false (by decide) (by decide))) ?_
    refine Relation.ReflTransGen.head
      (WStep.waiter (WaiterStep.spinMiss 9 WAITING 0 false (by decide) (by decide))) ?_
    refine Relation.ReflTransGen.head
      (WStep.waiter (WaiterStep.spinMiss 8 WAITING 0 false (by decide) (by decide))) ?_
    refine Relation.ReflTransGen.head
      (WStep.waiter (WaiterStep.spinMiss 7 WAITING 0 false (by decide) (by decide))) ?_
    refine Relation.ReflTransGen.head
      (WStep.waiter (WaiterStep.spinMiss 6 WAITING 0 false (by decide) (by decide))) ?_
    refine Relation.ReflTransGen.head
      (WStep.waiter (WaiterStep.spinMiss 5 WAITING 0 false (by decide) (by decide))) ?_
    refine Relation.ReflTransGen.head
      (WStep.waiter (WaiterStep.spinMiss 4 WAITING 0 false (by decide) (by decide))) ?_
    refine Relation.ReflTransGen.head
      (WStep.waiter (WaiterStep.spinMiss 3 WAITING 0 false (by decide) (by decide))) ?_
    refine Relation.ReflTransGen.head
      (WStep.waiter (WaiterStep.spinMiss 2 WAITING 0 false (by decide) (by decide))) ?_
    refine Relation.ReflTransGen.head
      (WStep.waiter (WaiterStep.spinMiss 1 WAITING 0 false (by decide) (by decide))) ?_
    refine Relation.ReflTransGen.head
      (WStep.waiter (WaiterStep.spinOut WAITING 0 false (by decide))) ?_
    refine Relation.ReflTransGen.head
      (WStep.waiter (WaiterStep.parkOk 0 false)) ?_
    refine Relation.ReflTransGen.head
      (WStep.notifyStep ⟨PARKED, WPC.loopCheck, 0, false⟩) ?_
    exact Relation.ReflTransGen.single
      (WStep.waiter (WaiterStep.loopHit NOTIFIED 0 false rfl))
  · rfl

/-- C2 amended: wait follows the claimed steps except that after a
successful WAITING to PARKED transition the park loop checks the NOTIFIED to
WAITING compare-and-swap before parking, so the thread parks only while that
compare-and-swap keeps failing (and a notification landing before the first
check means no OS park at all); parks happen only inside the park loop after
a failed check, a successful check is the only exit of the loop and resets
the state, a failed WAITING to PARKED transition leads to a store of WAITING
and a return that performed zero parks, and a successful spin-phase
compare-and-swap returns immediately with the state reset. -/
theorem C2_wait_steps_amended :
    (∀ c c' : WCfg, WaiterStep c c' → c'.parks ≠ c.parks →
       c.pc = WPC.parked ∧ c'.parks = c.parks + 1 ∧ c'.pc = WPC.loopCheck) ∧
    (∀ c c' : WCfg, WaiterStep c c' → c'.pc = WPC.parked →
       c.pc = WPC.loopCheck ∧ c.st ≠ NOTIFIED) ∧
    (∀ c c' : WCfg, WaiterStep c c' → c.pc = WPC.loopCheck → c.st = NOTIFIED →
       c'.pc = WPC.done 2 ∧ c'.st = WAITING ∧ c'.parks = c.parks) ∧
    (∀ c c' : WCfg, WaiterStep c c' → c.pc = WPC.tryPark → c.st ≠ WAITING →
       c'.pc = WPC.storeW ∧ c'.st = c.st ∧ c'.parks = c.parks) ∧
    (∀ c c' : WCfg, WaiterStep c c' → c.pc = WPC.tryPark → c.st = WAITING →
       c'.pc = WPC.loopCheck ∧ c'.st = PARKED) ∧
    (∀ c c' : WCfg, WaiterStep c c' → c.pc = WPC.storeW →
       c'.pc = WPC.done 1 ∧ c'.st = WAITING ∧ c'.parks = c.parks) ∧
    (∀ (c c' : WCfg) (k : Nat), WaiterStep c c' → c.pc = WPC.spin k →
       c.st = NOTIFIED → c'.pc = WPC.done 0 ∧ c'.st = WAITING) ∧
    (∀ (s : Nat) (c : WCfg), WReach (initCfg s) c → c.pc = WPC.done 1 →
       c.parks = 0) := by
  refine ⟨?_, ?_, ?_, ?_, ?_, ?_, ?_, ?_⟩
  · intro c c' h hne
    cases h <;> simp_all
  · intro c c' h hpc
    cases h <;> simp_all
  · intro c c' h hpc hst
    cases h <;> simp_all
  · intro c c' h hpc hst
    cases h <;> simp_all
  · intro c c' h hpc hst
    cases h <;> simp_all
  · intro c c' h hpc
    cases h <;> simp_all
  · intro c c' k h hpc hst
    cases h <;> simp_all
  · intro s c hr hpc
    exact noPark_reach (by intro _; rfl) hr (by rw [hpc]; rfl)

/-- Witness for C2 amended, at a concrete failed-park return step. -/
theorem C2_wait_steps_amended_witness :
    (⟨WAITING, WPC.done 1, 0, true⟩ : WCfg).pc = WPC.done 1 ∧
    (⟨WAITING, WPC.done 1, 0, true⟩ : WCfg).st = WAITING ∧
    (⟨WAITING, WPC.done 1, 0, true⟩ : WCfg).parks =
      (⟨NOTIFIED, WPC.storeW, 0, true⟩ : WCfg).parks :=
  C2_wait_steps_amended.2.2.2.2.2.1 ⟨NOTIFIED, WPC.storeW, 0, true⟩
    ⟨WAITING, WPC.done 1, 0, true⟩ (WaiterStep.storeWaiting NOTIFIED 0 true) rfl

/-- Counting helper: the empty trace has no checks. -/
theorem evalCount_nil : evalCount [] = 0 := rfl

/-- Counting helper: a check adds one. -/
theorem evalCount_checkA (b : Bool) (l : List SAct) :
    evalCount (SAct.checkA b :: l) = evalCount l + 1 := by
  simp [evalCount, List.filter_cons, isCheckAct]

/-- Counting helper: a yield adds nothing. -/
theorem evalCount_yieldA (l : List SAct) :
    evalCount (SAct.yieldA :: l) = evalCount l := by
  simp [evalCount, List.filter_cons, isCheckAct]

/-- Counting helper: a spin burst adds nothing. -/
theorem evalCount_spinB (n : Nat) (l : List SAct) :
    evalCount (SAct.spinB n :: l) = evalCount l := by
  simp [evalCount, List.filter_cons, isCheckAct]

/-- Counting helper: checks add over concatenation. -/
theorem evalCount_append (l1 l2 : List SAct) :
    evalCount (l1 ++ l2) = evalCount l1 + evalCount l2 := by
  simp [evalCount, List.filter_append]

/-- The yield loop succeeds exactly when the predicate holds at one of the
checked indices. -/
theorem yieldPhase_true_iff (pred : Nat → Bool) :
    ∀ n i, (yieldPhase pred i n).1 = true ↔ ∃ k, k < n ∧ pred (i + k) = true := by
  intro n
  induction n with
  | zero => intro i; simp [yieldPhase]
  | succ m ih =>
    intro i
    cases hp : pred i with
    | true =>
      simp [yieldPhase, hp]
      exact ⟨0, Nat.succ_pos m, by simpa using hp⟩
    | false =>
      simp only [yieldPhase, hp, Bool.false_eq_true, if_false, ih (i + 1)]
      constructor
      · rintro ⟨k, hk, hpk⟩
        refine ⟨k + 1, by omega, ?_⟩
        rw [show i + (k + 1) = i + 1 + k by omega]
        exact hpk
      · rintro ⟨k, hk, hpk⟩
        cases k with
        | zero =>
          rw [Nat.add_zero] at hpk
          rw [hp] at hpk
          exact Bool.noConfusion hpk
        | succ k2 =>
          refine ⟨k2, by omega, ?_⟩
          rw [show i + 1 + k2 = i + (k2 + 1) by omega]
          exact hpk

/-- The yield loop evaluates the predicate at most once per round. -/
theorem yieldPhase_count_le (pred : Nat → Bool) :
    ∀ n i, evalCount (yieldPhase pred i n).2 ≤ n := by
  intro n
  induction n with
  | zero => intro i; simp [yieldPhase, evalCount]
  | succ m ih =>
    intro i
    cases hp : pred i with
    | true =>
      simp [yieldPhase, hp, evalCount_yieldA, evalCount_checkA, evalCount_nil]
    | false =>
      have h1 := ih (i + 1)
      calc evalCount (yieldPhase pred i (m + 1)).2
          = evalCount (yieldPhase pred (i + 1) m).2 + 1 := by
            simp [yieldPhase, hp, evalCount_yieldA, evalCount_checkA]
        _ ≤ m + 1 := by omega

/-- When the predicate never holds the yield loop fails after exactly one
check per round. -/
theorem yieldPhase_all_false (pred : Nat → Bool) :
    ∀ n i, (∀ j, j < n → pred (i + j) = false) →
      (yieldPhase pred i n).1 = false ∧
      evalCount (yieldPhase pred i n).2 = n := by
  intro n
  induction n with
  | zero => intro i _; simp [yieldPhase, evalCount]
  | succ m ih =>
    intro i hj
    have hp : pred i = false := by simpa using hj 0 (Nat.succ_pos m)
    have hrec := ih (i + 1) (fun j hjm => by
      have h2 := hj (j + 1) (by omega)
      rwa [show i + (j + 1) = i + 1 + j by omega] at h2)
    constructor
    · simp [yieldPhase, hp, hrec.1]
    · simp [yieldPhase, hp, evalCount_yieldA, evalCount_checkA, hrec.2]

/-- The yield loop returns at the first check that holds, having evaluated
the predicate exactly once per completed round. -/
theorem yieldPhase_first (pred : Nat → Bool) :
    ∀ n i k, k < n → (∀ j, j < k → pred (i + j) = false) →
      pred (i + k) = true →
      (yieldPhase pred i n).1 = true ∧
      evalCount (yieldPhase pred i n).2 = k + 1 := by
  intro n
  induction n with
  | zero => intro i k hk hj hpk; omega
  | succ m ih =>
    intro i k hk hj hpk
    cases k with
    | zero =>
      rw [Nat.add_zero] at hpk
      constructor
      · simp [yieldPhase, hpk]
      · simp [yieldPhase, hpk, evalCount_yieldA, evalCount_checkA, evalCount_nil]
    | succ k2 =>
      have hp : pred i = false := by simpa using hj 0 (Nat.succ_pos k2)
      have hrec := ih (i + 1) k2 (by omega)
        (fun j hjk => by
          have h2 := hj (j + 1) (by omega)
          rwa [show i + (j + 1) = i + 1 + j by omega] at h2)
        (by rwa [show i + 1 + k2 = i + (k2 + 1) by omega])
      constructor
      · simp [yieldPhase, hp, hrec.1]
      · simp [yieldPhase, hp, evalCount_yieldA, evalCount_checkA, hrec.2]

/-- The yield loop performs no busy-spin burst. -/
theorem yieldPhase_no_spin (pred : Nat → Bool) :
    ∀ n i, ((yieldPhase pred i n).2.filter isSpinAct) = [] := by
  intro n
  induction n with
  | zero => intro i; simp [yieldPhase]
  | succ m ih =>
    intro i
    cases hp : pred i with
    | true => simp [yieldPhase, hp, List.filter_cons, isSpinAct]
    | false => simp [yieldPhase, hp, List.filter_cons, isSpinAct, ih (i + 1)]

/-- The spin loop succeeds exactly when the predicate holds at one of the
checked indices (the spin amounts are irrelevant to the result). -/
theorem spinPhase_true_iff (pred : Nat → Bool) :
    ∀ n i sh, (spinPhase pred i sh n).1 = true ↔
      ∃ k, k < n ∧ pred (i + k) = true := by
  intro n
  induction n with
  | zero => intro i sh; simp [spinPhase]
  | succ m ih =>
    intro i sh
    cases hp : pred i with
    | true =>
      simp [spinPhase, hp]
      exact ⟨0, Nat.succ_pos m, by simpa using hp⟩
    | false =>
      simp only [spinPhase, hp, Bool.false_eq_true, if_false, ih (i + 1) (sh + 1)]
      constructor
      · rintro ⟨k, hk, hpk⟩
        refine ⟨k + 1, by omega, ?_⟩
        rw [show i + (k + 1) = i + 1 + k by omega]
        exact hpk
      · rintro ⟨k, hk, hpk⟩
        cases k with
        | zero =>
          rw [Nat.add_zero] at hpk
          rw [hp] at hpk
          exact Bool.noConfusion hpk
        | succ k2 =>
          refine ⟨k2, by omega, ?_⟩
          rw [show i + 1 + k2 = i + (k2 + 1) by omega]
          exact hpk

/-- The spin loop evaluates the predicate at most once per round. -/
theorem spinPhase_count_le (pred : Nat → Bool) :
    ∀ n i sh, evalCount (spinPhase pred i sh n).2 ≤ n := by
  intro n
  induction n with
  | zero => intro i sh; simp [spinPhase, evalCount]
  | succ m ih =>
    intro i sh
    cases hp : pred i with
    | true =>
      simp [spinPhase, hp, evalCount_spinB, evalCount_checkA, evalCount_nil]
    | false =>
      have h1 := ih (i + 1) (sh + 1)
      calc evalCount (spinPhase pred i sh (m + 1)).2
          = evalCount (spinPhase pred (i + 1) (sh + 1) m).2 + 1 := by
            simp [spinPhase, hp, evalCount_spinB, evalCount_checkA]
        _ ≤ m + 1 := by omega

/-- When the predicate never holds the spin loop fails after exactly one
check per round. -/
theorem spinPhase_all_false (pred : Nat → Bool) :
    ∀ n i sh, (∀ j, j < n → pred (i + j) = false) →
      (spinPhase pred i sh n).1 = false ∧
      evalCount (spinPhase pred i sh n).2 = n := by
  intro n
  induction n with
  | zero => intro i sh _; simp [spinPhase, evalCount]
  | succ m ih =>
    intro i sh hj
    have hp : pred i = false := by simpa using hj 0 (Nat.succ_pos m)
    have hrec := ih (i + 1) (sh + 1) (fun j hjm => by
      have h2 := hj (j + 1) (by omega)
      rwa [show i + (j + 1) = i + 1 + j by omega] at h2)
    constructor
    · simp [spinPhase, hp, hrec.1]
    · simp [spinPhase, hp, evalCount_spinB, evalCount_checkA, hrec.2]

/-- The spin loop returns at the first check that holds. -/
theorem spinPhase_first (pred : Nat → Bool) :
    ∀ n i sh k, k < n → (∀ j, j < k → pred (i + j) = false) →
      pred (i + k) = true →
      (spinPhase pred i sh n).1 = true ∧
      evalCount (spinPhase pred i sh n).2 = k + 1 := by
  intro n
  induction n with
  | zero => intro i sh k hk hj hpk; omega
  | succ m ih =>
    intro i sh k hk hj hpk
    cases k with
    | zero =>
      rw [Nat.add_zero] at hpk
      constructor
      · simp [spinPhase, hpk]
      · simp [spinPhase, hpk, evalCount_spinB, evalCount_checkA, evalCount_nil]
    | succ k2 =>
      have hp : pred i = false := by simpa using hj 0 (Nat.succ_pos k2)
      have hrec := ih (i + 1) (sh + 1) k2 (by omega)
        (fun j hjk => by
          have h2 := hj (j + 1) (by omega)
          rwa [show i + (j + 1) = i + 1 + j by omega] at h2)
        (by rwa [show i + 1 + k2 = i + (k2 + 1) by omega])
      constructor
      · simp [spinPhase, hp, hrec.1]
      · simp [spinPhase, hp, evalCount_spinB, evalCount_checkA, hrec.2]

/-- Unfolding: a predicate satisfied at the initial check short-circuits
cond_spin. -/
theorem cond_spin_pos (pred : Nat → Bool) (hp0 : pred 0 = true) (mt : Bool) :
    cond_spin mt pred = (true, [SAct.checkA true]) := by
  simp [cond_spin, hp0]

/-- Unfolding: the single-threaded branch of cond_spin. -/
theorem cond_spin_false_st (pred : Nat → Bool) (hp0 : pred 0 = false) :
    cond_spin false pred =
      ((yieldPhase pred 1 (YIELD_COUNT + SPINING_COUNT)).1,
       SAct.checkA false ::
         (yieldPhase pred 1 (YIELD_COUNT + SPINING_COUNT)).2) := by
  simp [cond_spin, hp0]

/-- Unfolding: the multithreaded branch when the spin loop succeeds. -/
theorem cond_spin_mt_spin (pred : Nat → Bool) (hp0 : pred 0 = false)
    (h1 : (spinPhase pred 1 1 SPINING_COUNT).1 = true) :
    cond_spin true pred =
      (true, SAct.checkA false :: (spinPhase pred 1 1 SPINING_COUNT).2) := by
  simp [cond_spin, hp0, h1]

/-- Unfolding: the multithreaded branch when the spin loop fails. -/
theorem cond_spin_mt_yield (pred : Nat → Bool) (hp0 : pred 0 = false)
    (h1 : (spinPhase pred 1 1 SPINING_COUNT).1 = false) :
    cond_spin true pred =
      ((yieldPhase pred (1 + SPINING_COUNT) YIELD_COUNT).1,
       SAct.checkA false ::
         ((spinPhase pred 1 1 SPINING_COUNT).2 ++
          (yieldPhase pred (1 + SPINING_COUNT) YIELD_COUNT).2)) := by
  simp [cond_spin, hp0, h1]

/-- C7: cond_spin, given the predicate and the multithreading hint, returns
true exactly when the predicate holds at one of its checks (one check happens
before any spinning or yielding), returning at the first check that holds
with exactly that many evaluations; it returns false when the predicate
never holds within the fixed budget, and the number of predicate evaluations
never exceeds that budget, so cond_spin terminates on every predicate. -/
theorem C7_cond_spin_first_true :
    ∀ (mt : Bool) (pred : Nat → Bool),
      ((cond_spin mt pred).1 = true ↔
        ∃ k, k < spinEvalBudget ∧ pred k = true) ∧
      evalCount (cond_spin mt pred).2 ≤ spinEvalBudget ∧
      (∀ k, k < spinEvalBudget → (∀ j, j < k → pred j = false) →
        pred k = true →
        (cond_spin mt pred).1 = true ∧
        evalCount (cond_spin mt pred).2 = k + 1) := by
  intro mt pred
  have hSC : SPINING_COUNT = 5 := rfl
  have hYC : YIELD_COUNT = 5 := rfl
  have hB : spinEvalBudget = 11 := rfl
  cases hp0 : pred 0 with
  | true =>
    rw [cond_spin_pos pred hp0 mt]
    refine ⟨?_, by decide, ?_⟩
    · constructor
      · intro _
        exact ⟨0, by omega, hp0⟩
      · intro _
        rfl
    · intro k hk hj hpk
      have hk0 : k = 0 := by
        by_contra hne
        have h2 := hj 0 (by omega)
        rw [hp0] at h2
        exact Bool.noConfusion h2
      subst hk0
      exact ⟨rfl, by decide⟩
  | false =>
    cases mt with
    | false =>
      have e1 : (cond_spin false pred).1 =
          (yieldPhase pred 1 (YIELD_COUNT + SPINING_COUNT)).1 := by
        rw [cond_spin_false_st pred hp0]
      have e2 : (cond_spin false pred).2 =
          SAct.checkA false ::
            (yieldPhase pred 1 (YIELD_COUNT + SPINING_COUNT)).2 := by
        rw [cond_spin_false_st pred hp0]
      refine ⟨?_, ?_, ?_⟩
      · rw [e1, yieldPhase_true_iff pred (YIELD_COUNT + SPINING_COUNT) 1]
        constructor
        · rintro ⟨k, hk, hpk⟩
          exact ⟨1 + k, by omega, hpk⟩
        · rintro ⟨k, hk, hpk⟩
          cases k with
          | zero =>
            rw [hp0] at hpk
            exact Bool.noConfusion hpk
          | succ k2 =>
            refine ⟨k2, by omega, ?_⟩
            rwa [show (1 : Nat) + k2 = k2 + 1 by omega]
      · rw [e2, evalCount_checkA]
        have h1 := yieldPhase_count_le pred (YIELD_COUNT + SPINING_COUNT) 1
        omega
      · intro k hk hj hpk
        have hk1 : 1 ≤ k := by
          rcases Nat.eq_zero_or_pos k with rfl | h
          · rw [hp0] at hpk
            exact Bool.noConfusion hpk
          · exact h
        have hfirst := yieldPhase_first pred (YIELD_COUNT + SPINING_COUNT) 1
          (k - 1) (by omega)
          (fun j hjk => by
            have h2 := hj (j + 1) (by omega)
            rwa [show (1 : Nat) + j = j + 1 by omega])
          (by rwa [show (1 : Nat) + (k - 1) = k by omega])
        constructor
        · rw [e1]
          exact hfirst.1
        · rw [e2, evalCount_checkA, hfirst.2]
          omega
    | true =>
      cases hr1 : (spinPhase pred 1 1 SPINING_COUNT).1 with
      | true =>
        have e1 : (cond_spin true pred).1 = true := by
          rw [cond_spin_mt_spin pred hp0 hr1]
        have e2 : (cond_spin true pred).2 =
            SAct.checkA false :: (spinPhase pred 1 1 SPINING_COUNT).2 := by
          rw [cond_spin_mt_spin pred hp0 hr1]
        refine ⟨?_, ?_, ?_⟩
        · rw [e1]
          constructor
          · intro _
            obtain ⟨k, hk, hpk⟩ :=
              (spinPhase_true_iff pred SPINING_COUNT 1 1).mp hr1
            exact ⟨1 + k, by omega, hpk⟩
          · intro _
            rfl
        · rw [e2, evalCount_checkA]
          have h1 := spinPhase_count_le pred SPINING_COUNT 1 1
          omega
        · intro k hk hj hpk
          have hk1 : 1 ≤ k := by
            rcases Nat.eq_zero_or_pos k with rfl | h
            · rw [hp0] at hpk
              exact Bool.noConfusion hpk
            · exact h
          have hk5 : k ≤ SPINING_COUNT := by
            by_contra h6
            have hall := spinPhase_all_false pred SPINING_COUNT 1 1
              (fun j hj5 => by
                have h2 := hj (1 + j) (by omega)
                exact h2)
            rw [hall.1] at hr1
            exact Bool.noConfusion hr1
          have hfirst := spinPhase_first pred SPINING_COUNT 1 1 (k - 1)
            (by omega)
            (fun j hjk => by
              have h2 := hj (j + 1) (by omega)
              rwa [show (1 : Nat) + j = j + 1 by omega])
            (by rwa [show (1 : Nat) + (k - 1) = k by omega])
          refine ⟨e1, ?_⟩
          rw [e2, evalCount_checkA, hfirst.2]
          omega
      | false =>
        have e1 : (cond_spin true pred).1 =
            (yieldPhase pred (1 + SPINING_COUNT) YIELD_COUNT).1 := by
          rw [cond_spin_mt_yield pred hp0 hr1]
        have e2 : (cond_spin true pred).2 =
            SAct.checkA false ::
              ((spinPhase pred 1 1 SPINING_COUNT).2 ++
               (yieldPhase pred (1 + SPINING_COUNT) YIELD_COUNT).2) := by
          rw [cond_spin_mt_yield pred hp0 hr1]
        refine ⟨?_, ?_, ?_⟩
        · rw [e1, yieldPhase_true_iff pred YIELD_COUNT (1 + SPINING_COUNT)]
          constructor
          · rintro ⟨k, hk, hpk⟩
            exact ⟨1 + SPINING_COUNT + k, by omega, hpk⟩
          · rintro ⟨k, hk, hpk⟩
            rcases Nat.lt_or_ge k (1 + SPINING_COUNT) with hlow | hhigh
            · rcases Nat.eq_zero_or_pos k with rfl | hkpos
              · rw [hp0] at hpk
                exact Bool.noConfusion hpk
              · exfalso
                have h2 : (spinPhase pred 1 1 SPINING_COUNT).1 = true :=
                  (spinPhase_true_iff pred SPINING_COUNT 1 1).mpr
                    ⟨k - 1, by omega,
                      by rwa [show (1 : Nat) + (k - 1) = k by omega]⟩
                rw [h2] at hr1
                exact Bool.noConfusion hr1
            · refine ⟨k - (1 + SPINING_COUNT), by omega, ?_⟩
              rwa [show 1 + SPINING_COUNT + (k - (1 + SPINING_COUNT)) = k
                by omega]
        · rw [e2, evalCount_checkA, evalCount_append]
          have h1 := spinPhase_count_le pred SPINING_COUNT 1 1
          have h2 := yieldPhase_count_le pred YIELD_COUNT (1 + SPINING_COUNT)
          omega
        · intro k hk hj hpk
          have hk1 : 1 ≤ k := by
            rcases Nat.eq_zero_or_pos k with rfl | h
            · rw [hp0] at hpk
              exact Bool.noConfusion hpk
            · exact h
          have hk6 : 1 + SPINING_COUNT ≤ k := by
            by_contra hlow
            have hfirst := spinPhase_first pred SPINING_COUNT 1 1 (k - 1)
              (by omega)
              (fun j hjk => by
                have h2 := hj (j + 1) (by omega)
                rwa [show (1 : Nat) + j = j + 1 by omega])
              (by rwa [show (1 : Nat) + (k - 1) = k by omega])
            rw [hfirst.1] at hr1
            exact Bool.noConfusion hr1
          have hall := spinPhase_all_false pred SPINING_COUNT 1 1
            (fun j hj5 => by
              have h2 := hj (1 + j) (by omega)
              exact h2)
          have hfirst := yieldPhase_first pred YIELD_COUNT (1 + SPINING_COUNT)
            (k - (1 + SPINING_COUNT)) (by omega)
            (fun j hjk => by
              have h2 := hj (1 + SPINING_COUNT + j) (by omega)
              exact h2)
            (by rwa [show 1 + SPINING_COUNT + (k - (1 + SPINING_COUNT)) = k
              by omega])
          constructor
          · rw [e1]
            exact hfirst.1
          · rw [e2, evalCount_checkA, evalCount_append, hall.2, hfirst.2]
            omega

/-- Witness for C7 at a predicate that first holds at its fourth check, with
the multithreaded hint. -/
theorem C7_cond_spin_first_true_witness :
    (cond_spin true (fun n => decide (n = 3))).1 = true ∧
    evalCount (cond_spin true (fun n => decide (n = 3))).2 = 3 + 1 :=
  (C7_cond_spin_first_true true (fun n => decide (n = 3))).2.2 3 (by decide)
    (fun j hj => by
      have : j ≠ 3 := by omega
      simp [this])
    (by decide)

/-- C8: when the hint reports single-threaded, cond_spin performs no
busy-spin burst at all and, when the predicate never holds, performs exactly
ten cooperative yields checking the predicate after each and gives up; when
multithreaded and the predicate never holds, it performs five busy-spin
bursts of doubling sizes 2, 4, 8, 16, 32 checking after each burst, then
five cooperative yields checking after each, and then gives up. -/
theorem C8_cond_spin_structure :
    (∀ pred : Nat → Bool,
      ((cond_spin false pred).2.filter isSpinAct) = []) ∧
    cond_spin false (fun _ => false) =
      (false,
        SAct.checkA false ::
          (List.replicate 10 [SAct.yieldA, SAct.checkA false]).flatten) ∧
    cond_spin true (fun _ => false) =
      (false,
        SAct.checkA false ::
          ([SAct.spinB 2, SAct.checkA false, SAct.spinB 4, SAct.checkA false,
            SAct.spinB 8, SAct.checkA false, SAct.spinB 16, SAct.checkA false,
            SAct.spinB 32, SAct.checkA false] ++
           (List.replicate 5 [SAct.yieldA, SAct.checkA false]).flatten)) := by
  refine ⟨?_, by decide, by decide⟩
  intro pred
  cases hp0 : pred 0 with
  | true => simp [cond_spin, hp0, List.filter_cons, isSpinAct]
  | false =>
    simp [cond_spin, hp0, List.filter_cons, isSpinAct, yieldPhase_no_spin]

end Swait
